import Mathlib

/-!
Shallow embedding of `src/index.ts` of koishi-plugin-electric-fee
(the payment ledger: record / list / delete commands over a scoped
record store), together with proofs of the specification claims.

JavaScript numbers are modelled as `JSNum`: either NaN, an infinity, or
a finite value represented exactly by a rational.  The arithmetic the
source performs on amounts (multiply / divide by the positive constant
100, `Math.round`, subtraction, `Math.abs`, comparisons with NaN
semantics) is embedded case by case on this type.
-/

namespace ElectricFee

/-- The plugin configuration: `currencyUnit`, a display string. -/
structure Config where
  currencyUnit : String
deriving DecidableEq

/-- A JavaScript number: NaN, +Infinity, -Infinity, or a finite value
(idealised as an exact rational). -/
inductive JSNum where
  | nan : JSNum
  | inf : JSNum
  | ninf : JSNum
  | fin : ℚ → JSNum
deriving DecidableEq

/-- `isNaN(x)` of JavaScript. -/
def jsIsNaN : JSNum → Bool
  | .nan => true
  | _ => false

/-- JavaScript multiplication of a number by a positive finite constant
(the source only multiplies amounts by 100). -/
def jscale (a : JSNum) (c : ℚ) : JSNum :=
  match a with
  | .nan => .nan
  | .inf => .inf
  | .ninf => .ninf
  | .fin q => .fin (q * c)

/-- JavaScript division of a number by a positive finite constant
(the source only divides by 100). -/
def jdivp (a : JSNum) (c : ℚ) : JSNum :=
  match a with
  | .nan => .nan
  | .inf => .inf
  | .ninf => .ninf
  | .fin q => .fin (q / c)

/-- `Math.round`: round half toward +∞ on finite values; NaN and the
infinities are fixed points. -/
def jround : JSNum → JSNum
  | .nan => .nan
  | .inf => .inf
  | .ninf => .ninf
  | .fin q => .fin (⌊q + 1/2⌋ : ℤ)

/-- JavaScript subtraction `a - b` (in particular `∞ - ∞ = NaN`). -/
def jsub : JSNum → JSNum → JSNum
  | .nan, _ => .nan
  | _, .nan => .nan
  | .inf, .inf => .nan
  | .inf, _ => .inf
  | .ninf, .ninf => .nan
  | .ninf, _ => .ninf
  | .fin _, .inf => .ninf
  | .fin _, .ninf => .inf
  | .fin q, .fin r => .fin (q - r)

/-- `Math.abs`. -/
def jabs : JSNum → JSNum
  | .nan => .nan
  | .inf => .inf
  | .ninf => .inf
  | .fin q => .fin |q|

/-- JavaScript addition (used by the listing's `reduce`). -/
def jadd : JSNum → JSNum → JSNum
  | .nan, _ => .nan
  | _, .nan => .nan
  | .inf, .ninf => .nan
  | .ninf, .inf => .nan
  | .inf, _ => .inf
  | _, .inf => .inf
  | .ninf, _ => .ninf
  | _, .ninf => .ninf
  | .fin q, .fin r => .fin (q + r)

/-- JavaScript `<`: any comparison involving NaN is false. -/
def jlt : JSNum → JSNum → Bool
  | .nan, _ => false
  | _, .nan => false
  | .ninf, .ninf => false
  | .ninf, _ => true
  | .inf, _ => false
  | .fin _, .inf => true
  | .fin _, .ninf => false
  | .fin q, .fin r => decide (q < r)

/-- JavaScript `>`. -/
def jgt (a b : JSNum) : Bool := jlt b a

/-- A row of the `electric_payment` table.  `date` is an abstract
creation timestamp (milliseconds). -/
structure ElectricPayment where
  id : ℕ
  amount : JSNum
  date : ℕ
  channelId : String
  userId : String
deriving DecidableEq

/-- The database state: the table contents plus the auto-increment
counter used for fresh ids. -/
structure DB where
  store : List ElectricPayment
  nextId : ℕ
deriving DecidableEq

/-- `ctx.database.create('electric_payment', {...})`: insert one row
with a fresh auto-increment id. -/
def dbCreate (db : DB) (amount : JSNum) (now : ℕ) (c u : String) : DB :=
  { store := db.store ++ [⟨db.nextId, amount, now, c, u⟩], nextId := db.nextId + 1 }

/-- The `{ channelId, userId }` query filter. -/
def inScope (c u : String) (r : ElectricPayment) : Bool :=
  r.channelId == c && r.userId == u

/-- The `{ sort: { date: 'asc' } }` comparison. -/
def dateLe (a b : ElectricPayment) : Bool := decide (a.date ≤ b.date)

/-- `ctx.database.get('electric_payment', { channelId, userId },
{ sort: { date: 'asc' } })`. -/
def getSorted (db : DB) (c u : String) : List ElectricPayment :=
  (db.store.filter (inScope c u)).mergeSort dateLe

/-- `ctx.database.remove('electric_payment', { id: targets })`: delete
every row whose id is in the list (the filter is NOT scoped). -/
def dbRemove (db : DB) (ids : List ℕ) : DB :=
  { db with store := db.store.filter (fun r => decide (r.id ∉ ids)) }

/-- The structured content of each user-facing reply (text formatting
and localisation are abstracted away; each constructor keeps exactly
the data the corresponding template string interpolates). -/
inductive Response where
  | payInvalidAmount : Response
  | payBelowMinimum : String → Response
  | payPrecision : Response
  | paySuccess : JSNum → String → Response
  | listEmpty : Response
  | listRecords : List (ℕ × ℕ × JSNum) → JSNum → String → Response
  | delEmptyInput : Response
  | delNoRecords : Response
  | delInvalidRange : ℕ → Response
  | delOutOfRange : ℕ → Response
  | delNothingFound : Response
  | delSuccess : List (ℕ × JSNum) → String → Response
deriving DecidableEq

/-- `minAmount = 0.01`. -/
def minAmount : ℚ := 1 / 100

/-- The precision tolerance `1e-6`. -/
def precEps : ℚ := 1 / 1000000

/-- The `交电费` (record payment) action.  `amount = none` models a
missing / non-number argument (`typeof amount !== 'number'`). -/
def payAction (cfg : Config) (db : DB) (c u : String) (now : ℕ)
    (amount : Option JSNum) : DB × Response :=
  match amount with
  | none => (db, .payInvalidAmount)
  | some a =>
    if jsIsNaN a then (db, .payInvalidAmount)
    else if jlt a (.fin minAmount) then (db, .payBelowMinimum cfg.currencyUnit)
    else
      let validatedAmount := jdivp (jround (jscale a 100)) 100
      if jgt (jabs (jsub a validatedAmount)) (.fin precEps) then (db, .payPrecision)
      else (dbCreate db validatedAmount now c u, .paySuccess validatedAmount cfg.currencyUnit)

/-- The `统计电费` (list payments) action. -/
def listAction (cfg : Config) (db : DB) (c u : String) : DB × Response :=
  let records := getSorted db c u
  if records.length = 0 then (db, .listEmpty)
  else
    (db, .listRecords (records.enum.map (fun p => (p.1 + 1, p.2.date, p.2.amount)))
          (records.foldl (fun s r => jadd s r.amount) (.fin 0)) cfg.currencyUnit)

/-- `c` is an ASCII digit (`\d`). -/
def isDig (ch : Char) : Bool := decide ('0' ≤ ch) && decide (ch ≤ '9')

/-- `parseInt` of a nonempty digit string. -/
def digitsVal (l : List Char) : ℕ :=
  l.foldl (fun acc ch => acc * 10 + (ch.toNat - '0'.toNat)) 0

/-- Split a character list at its first `'-'`, if any. -/
def splitDash : List Char → Option (List Char × List Char)
  | [] => none
  | ch :: rest =>
    if ch = '-' then some ([], rest)
    else (splitDash rest).map (fun p => (ch :: p.1, p.2))

/-- `parseRange` on a character list: match `^(\d+)(?:-(\d+))?$`, then
`start ≤ end ? [start..end] : null`. -/
def parseRangeL (l : List Char) : Option (List ℕ) :=
  match splitDash l with
  | none =>
    if l ≠ [] ∧ l.all isDig then
      let s := digitsVal l
      let e := s
      if s ≤ e then some (List.range' s (e - s + 1)) else none
    else none
  | some (a, b) =>
    if a ≠ [] ∧ a.all isDig ∧ b ≠ [] ∧ b.all isDig then
      let s := digitsVal a
      let e := digitsVal b
      if s ≤ e then some (List.range' s (e - s + 1)) else none
    else none

/-- The `parseRange` helper of the `.删` action. -/
def parseRange (s : String) : Option (List ℕ) := parseRangeL s.toList

/-- `[...new Set(indexes)].sort((a, b) => a - b)`: remove duplicates
and sort ascending.  (The dedup order differs from JS Set insertion
order, but the subsequent ascending sort yields the identical list.) -/
def uniqSorted (idxs : List ℕ) : List ℕ :=
  idxs.dedup.mergeSort (fun a b => decide (a ≤ b))

/-- `uniqueIndexes.map(i => records[i - 1]?.id).filter(id => id !==
undefined)`. -/
def targetsOf (records : List ElectricPayment) (uniq : List ℕ) : List ℕ :=
  uniq.filterMap (fun i => (records.get? (i - 1)).map (·.id))

/-- The `.删` (delete records) action. -/
def delAction (cfg : Config) (db : DB) (c u : String) (input : String) :
    DB × Response :=
  if input = "" then (db, .delEmptyInput)
  else
    let records := getSorted db c u
    if records.length = 0 then (db, .delNoRecords)
    else
      match parseRange input with
      | none => (db, .delInvalidRange records.length)
      | some indexes =>
        if indexes.any (fun i => decide (i < 1) || decide (records.length < i)) then
          (db, .delOutOfRange records.length)
        else
          let uniqueIndexes := uniqSorted indexes
          let targets := targetsOf records uniqueIndexes
          if targets.length = 0 then (db, .delNothingFound)
          else
            (dbRemove db targets,
             .delSuccess
               (uniqueIndexes.map
                 (fun i => (i, ((records.get? (i - 1)).map (·.amount)).getD (.fin 0))))
               cfg.currencyUnit)

/-- The three store-touching commands of the plugin. -/
inductive Cmd where
  | pay : Option JSNum → Cmd
  | stat : Cmd
  | del : String → Cmd
deriving DecidableEq

/-- Dispatch a command the way the plugin's handlers do. -/
def runCmd (cfg : Config) (db : DB) (c u : String) (now : ℕ) : Cmd → DB × Response
  | .pay a => payAction cfg db c u now a
  | .stat => listAction cfg db c u
  | .del t => delAction cfg db c u t

/-- Specification-side rounding: `round(a*100)/100` with JavaScript
`Math.round` semantics. -/
def round2 (q : ℚ) : ℚ := (⌊q * 100 + 1/2⌋ : ℤ) / 100

lemma isDig_dash : isDig '-' = false := by decide

lemma all_isDig_no_dash {l : List Char} (h : l.all isDig = true) : '-' ∉ l := by
  intro hm
  have := List.all_eq_true.1 h _ hm
  rw [isDig_dash] at this
  exact Bool.false_ne_true this

lemma splitDash_of_no_dash {l : List Char} (h : '-' ∉ l) : splitDash l = none := by
  induction l with
  | nil => rfl
  | cons ch rest ih =>
    simp only [List.mem_cons, not_or] at h
    rw [splitDash, if_neg (Ne.symm h.1), ih h.2, Option.map_none']

lemma splitDash_append (p q : List Char) (hp : '-' ∉ p) :
    splitDash (p ++ '-' :: q) = some (p, q) := by
  induction p with
  | nil => simp [splitDash]
  | cons ch rest ih =>
    simp only [List.mem_cons, not_or] at hp
    rw [List.cons_append, splitDash, if_neg (Ne.symm hp.1), ih hp.2]
    rfl

lemma parseRangeL_digits {l : List Char} (hne : l ≠ []) (hd : l.all isDig = true) :
    parseRangeL l = some [digitsVal l] := by
  simp only [parseRangeL, splitDash_of_no_dash (all_isDig_no_dash hd)]
  rw [if_pos ⟨hne, hd⟩, if_pos le_rfl, Nat.sub_self, List.range'_one]

lemma parseRangeL_dash {p q : List Char} (hp : p ≠ []) (hq : q ≠ [])
    (hpd : p.all isDig = true) (hqd : q.all isDig = true) :
    parseRangeL (p ++ '-' :: q) =
      if digitsVal p ≤ digitsVal q then
        some (List.range' (digitsVal p) (digitsVal q - digitsVal p + 1))
      else none := by
  simp only [parseRangeL, splitDash_append p q (all_isDig_no_dash hpd)]
  rw [if_pos ⟨hp, hpd, hq, hqd⟩]

lemma parseRange_empty : parseRange "" = none := rfl

lemma parseRange_ne_empty {s : String} {idxs : List ℕ}
    (h : parseRange s = some idxs) : s ≠ "" := by
  intro he
  rw [he, parseRange_empty] at h
  exact Option.noConfusion h

lemma parseRange_nonempty {s : String} {idxs : List ℕ}
    (h : parseRange s = some idxs) : idxs ≠ [] := by
  rw [parseRange, parseRangeL] at h
  rcases hsp : splitDash s.toList with _ | ⟨a, b⟩ <;> simp only [hsp] at h <;>
    split_ifs at h <;> first
      | exact Option.noConfusion h
      | · obtain rfl : _ = idxs := Option.some_inj.1 h
          simp [List.range'_eq_nil]

lemma delAction_parse_fail (cfg : Config) (db : DB) (c u : String) {input : String}
    (hne : input ≠ "") (hp : parseRange input = none) :
    delAction cfg db c u input =
      if (getSorted db c u).length = 0 then (db, .delNoRecords)
      else (db, .delInvalidRange (getSorted db c u).length) := by
  simp only [delAction, if_neg hne, hp]

lemma payAction_fin (cfg : Config) (db : DB) (c u : String) (now : ℕ) (q : ℚ) :
    payAction cfg db c u now (some (.fin q)) =
      if q < minAmount then (db, .payBelowMinimum cfg.currencyUnit)
      else if precEps < |q - round2 q| then (db, .payPrecision)
      else (dbCreate db (.fin (round2 q)) now c u,
            .paySuccess (.fin (round2 q)) cfg.currencyUnit) := by
  simp only [payAction, jsIsNaN, jlt, jgt, jabs, jsub, jscale, jdivp, jround,
    Bool.false_eq_true, if_false, decide_eq_true_eq, round2]

/-- C1: for a finite caller-supplied amount `q ≥ 0.01`, if `q` is within
`1e-6` of `round(q*100)/100` the record command accepts it and persists
exactly `round(q*100)/100`; if the difference exceeds `1e-6` it rejects
with `PrecisionError` and the store is unchanged. -/
theorem C1_amount_validation (cfg : Config) (db : DB) (c u : String) (now : ℕ)
    (q : ℚ) (hmin : 1/100 ≤ q) :
    (|q - round2 q| ≤ 1/1000000 →
      payAction cfg db c u now (some (.fin q)) =
        (dbCreate db (.fin (round2 q)) now c u,
         .paySuccess (.fin (round2 q)) cfg.currencyUnit)) ∧
    (1/1000000 < |q - round2 q| →
      payAction cfg db c u now (some (.fin q)) = (db, .payPrecision)) := by
  rw [payAction_fin]
  have hnot : ¬ q < minAmount := not_lt.2 (by rw [minAmount]; exact hmin)
  rw [if_neg hnot]
  constructor
  · intro hle
    rw [if_neg (not_lt.2 (by rw [precEps]; exact hle))]
  · intro hgt
    rw [if_pos (by rw [precEps]; exact hgt)]

/-- Witness for C1 at the concrete amount 2. -/
theorem C1_amount_validation_witness :
    (1/100 : ℚ) ≤ 2 ∧ |2 - round2 2| ≤ 1/1000000 ∧
    payAction ⟨"元"⟩ ⟨[], 1⟩ "c" "u" 0 (some (.fin 2)) =
      (dbCreate ⟨[], 1⟩ (.fin (round2 2)) 0 "c" "u",
       .paySuccess (.fin (round2 2)) "元") :=
  ⟨by norm_num,
   by norm_num [round2],
   (C1_amount_validation ⟨"元"⟩ ⟨[], 1⟩ "c" "u" 0 2 (by norm_num)).1
     (by norm_num [round2])⟩

/-- C8: every finite amount below 0.01 (including zero and negative
values) is rejected with `BelowMinimum` and no record is created. -/
theorem C8_below_minimum (cfg : Config) (db : DB) (c u : String) (now : ℕ)
    (q : ℚ) (h : q < 1/100) :
    payAction cfg db c u now (some (.fin q)) =
      (db, .payBelowMinimum cfg.currencyUnit) := by
  rw [payAction_fin, if_pos (by rw [minAmount]; exact h)]

/-- Witness for C8 at the concrete amount 0. -/
theorem C8_below_minimum_witness :
    (0 : ℚ) < 1/100 ∧
    payAction ⟨"元"⟩ ⟨[], 1⟩ "c" "u" 0 (some (.fin 0)) =
      (⟨[], 1⟩, .payBelowMinimum "元") :=
  ⟨by norm_num, C8_below_minimum ⟨"元"⟩ ⟨[], 1⟩ "c" "u" 0 0 (by norm_num)⟩

/-- C6 fails on the code: a payment of `+∞` is NOT rejected with
`InvalidAmount` — it passes every check (`isNaN(∞)` is false, `∞ < 0.01`
is false, and `|∞ - ∞| = NaN` makes the precision test false) and a
record with amount `+∞` is created. -/
theorem C6_counterexample :
    payAction ⟨"元"⟩ ⟨[], 1⟩ "c" "u" 0 (some .inf) =
      (⟨[⟨1, .inf, 0, "c", "u"⟩], 2⟩, .paySuccess .inf "元") ∧
    Response.paySuccess .inf "元" ≠ .payInvalidAmount ∧
    ([⟨1, .inf, 0, "c", "u"⟩] : List ElectricPayment) ≠ [] := by
  refine ⟨?_, by decide, by decide⟩
  rfl

/-- C6 amended: a missing or non-number argument and `NaN` are rejected
with `InvalidAmount` with no record created; `-∞` is rejected with
`BelowMinimum`; but `+∞` is accepted and a record with amount `+∞` is
created. -/
theorem C6_amended (cfg : Config) (db : DB) (c u : String) (now : ℕ) :
    payAction cfg db c u now none = (db, .payInvalidAmount) ∧
    payAction cfg db c u now (some .nan) = (db, .payInvalidAmount) ∧
    payAction cfg db c u now (some .ninf) =
      (db, .payBelowMinimum cfg.currencyUnit) ∧
    payAction cfg db c u now (some .inf) =
      (dbCreate db .inf now c u, .paySuccess .inf cfg.currencyUnit) := by
  refine ⟨rfl, rfl, ?_, ?_⟩ <;> rfl

lemma delAction_no_records (cfg : Config) (db : DB) (c u : String) {input : String}
    (hne : input ≠ "") (hrec : getSorted db c u = []) :
    delAction cfg db c u input = (db, .delNoRecords) := by
  simp only [delAction, if_neg hne, hrec, List.length_nil, if_pos]

lemma delAction_out_of_range (cfg : Config) (db : DB) (c u : String)
    {input : String} {idxs : List ℕ} (hp : parseRange input = some idxs)
    (hrec : getSorted db c u ≠ [])
    (hout : ∃ i ∈ idxs, i < 1 ∨ (getSorted db c u).length < i) :
    delAction cfg db c u input = (db, .delOutOfRange (getSorted db c u).length) := by
  have hne := parseRange_ne_empty hp
  simp only [delAction, if_neg hne, hp]
  rw [if_neg (fun h0 => hrec (List.length_eq_zero.1 h0)), if_pos]
  obtain ⟨i, hi, hor⟩ := hout
  refine List.any_eq_true.2 ⟨i, hi, ?_⟩
  rcases hor with h | h <;> simp [h]

/-- A concrete five-record scope used by the witnesses. -/
def db5 : DB :=
  ⟨[⟨1, .fin 100, 1, "c", "u"⟩, ⟨2, .fin 100, 2, "c", "u"⟩,
    ⟨3, .fin 100, 3, "c", "u"⟩, ⟨4, .fin 100, 4, "c", "u"⟩,
    ⟨5, .fin 100, 5, "c", "u"⟩], 6⟩

lemma getSorted_nil (n : ℕ) (c u : String) : getSorted ⟨[], n⟩ c u = [] := by
  simp [getSorted, List.mergeSort_nil]

lemma getSorted_db5 : getSorted db5 "c" "u" = db5.store := by
  rw [getSorted, show db5.store.filter (inScope "c" "u") = db5.store from by decide]
  exact List.mergeSort_of_sorted (by decide)

/-- C2 fails on the code as stated: on a scope with zero records every
ordinal is out of range, yet the command answers with the no-records
response (the empty-scope check runs before ordinal validation), not
with `OutOfRange`.  No record is removed either way. -/
theorem C2_out_of_range_counterexample :
    parseRange "1" = some [1] ∧
    getSorted ⟨[], 1⟩ "c" "u" = [] ∧
    delAction ⟨"元"⟩ ⟨[], 1⟩ "c" "u" "1" = (⟨[], 1⟩, .delNoRecords) ∧
    Response.delNoRecords ≠ .delOutOfRange 0 := by
  refine ⟨by decide, getSorted_nil 1 "c" "u", ?_, by decide⟩
  exact delAction_no_records ⟨"元"⟩ ⟨[], 1⟩ "c" "u" (by decide) (getSorted_nil 1 "c" "u")

/-- C2 amended: when any parsed ordinal lies outside
`[1, recordCount]`, the command removes no record; on a scope with at
least one record it rejects with `OutOfRange`, while on an empty scope
it answers with the no-records response instead. -/
theorem C2_amended (cfg : Config) (db : DB) (c u : String)
    (tok : String) (idxs : List ℕ) (hp : parseRange tok = some idxs)
    (hout : ∃ i ∈ idxs, i < 1 ∨ (getSorted db c u).length < i) :
    (delAction cfg db c u tok).1 = db ∧
    (getSorted db c u ≠ [] →
      (delAction cfg db c u tok).2 = .delOutOfRange (getSorted db c u).length) ∧
    (getSorted db c u = [] → (delAction cfg db c u tok).2 = .delNoRecords) := by
  have hne := parseRange_ne_empty hp
  by_cases hrec : getSorted db c u = []
  · rw [delAction_no_records cfg db c u hne hrec]
    exact ⟨rfl, fun h => absurd hrec h, fun _ => rfl⟩
  · rw [delAction_out_of_range cfg db c u hp hrec hout]
    exact ⟨rfl, fun _ => rfl, fun h => absurd h hrec⟩

/-- Witness for the amended C2: token `1-10` on a five-record scope. -/
theorem C2_amended_witness :
    (delAction ⟨"元"⟩ db5 "c" "u" "1-10").1 = db5 ∧
    (delAction ⟨"元"⟩ db5 "c" "u" "1-10").2 =
      .delOutOfRange (getSorted db5 "c" "u").length := by
  have h := C2_amended ⟨"元"⟩ db5 "c" "u" "1-10" [1, 2, 3, 4, 5, 6, 7, 8, 9, 10]
    (by decide) (by rw [getSorted_db5]; decide)
  exact ⟨h.1, h.2.1 (by rw [getSorted_db5]; decide)⟩

/-- C5 fails on the code as stated: the claim demands `InvalidRange`
for a malformed token regardless of store state, but on an empty scope
the command answers with the no-records response (that check runs
before parsing). -/
theorem C5_malformed_counterexample :
    parseRange "abc" = none ∧
    delAction ⟨"元"⟩ ⟨[], 1⟩ "c" "u" "abc" = (⟨[], 1⟩, .delNoRecords) ∧
    Response.delNoRecords ≠ .delInvalidRange 0 := by
  refine ⟨by decide, ?_, by decide⟩
  exact delAction_no_records ⟨"元"⟩ ⟨[], 1⟩ "c" "u" (by decide) (getSorted_nil 1 "c" "u")

/-- C5 amended: a non-empty token the parser rejects (in particular any
token not matching `^\d+(-\d+)?$`) deletes nothing; on a scope with at
least one record the command rejects with `InvalidRange`, while on an
empty scope it answers with the no-records response instead. -/
theorem C5_amended (cfg : Config) (db : DB) (c u : String) (tok : String)
    (hne : tok ≠ "") (hbad : parseRange tok = none) :
    (delAction cfg db c u tok).1 = db ∧
    (getSorted db c u ≠ [] →
      (delAction cfg db c u tok).2 = .delInvalidRange (getSorted db c u).length) ∧
    (getSorted db c u = [] → (delAction cfg db c u tok).2 = .delNoRecords) := by
  rw [delAction_parse_fail cfg db c u hne hbad]
  refine ⟨by split_ifs <;> rfl, fun hrec => ?_, fun hrec => ?_⟩
  · rw [if_neg (fun h0 => hrec (List.length_eq_zero.1 h0))]
  · rw [if_pos (by rw [hrec]; rfl)]

/-- Witness for the amended C5: token `abc` on a five-record scope. -/
theorem C5_amended_witness :
    (delAction ⟨"元"⟩ db5 "c" "u" "abc").1 = db5 ∧
    (delAction ⟨"元"⟩ db5 "c" "u" "abc").2 =
      .delInvalidRange (getSorted db5 "c" "u").length := by
  have h := C5_amended ⟨"元"⟩ db5 "c" "u" "abc" (by decide) (by decide)
  exact ⟨h.1, h.2.1 (by rw [getSorted_db5]; decide)⟩

/-- C3: a token `N-M` (digits, dash, digits) parses to the inclusive
sequence `N..M` when `N ≤ M`; when `N > M` parsing fails (the
`InvalidRange` signal: the parser returns `none`, the command deletes
nothing, and on a non-empty scope it reports the invalid-range error);
a bare token `N` parses to the singleton `[N]`. -/
theorem C3_range_token (p q : List Char) (hp : p ≠ []) (hq : q ≠ [])
    (hpd : p.all isDig = true) (hqd : q.all isDig = true) :
    (digitsVal p ≤ digitsVal q →
      parseRange ⟨p ++ '-' :: q⟩ =
        some (List.range' (digitsVal p) (digitsVal q - digitsVal p + 1))) ∧
    (digitsVal q < digitsVal p →
      parseRange ⟨p ++ '-' :: q⟩ = none ∧
      ∀ (cfg : Config) (db : DB) (c u : String),
        (delAction cfg db c u ⟨p ++ '-' :: q⟩).1 = db ∧
        (getSorted db c u ≠ [] →
          (delAction cfg db c u ⟨p ++ '-' :: q⟩).2 =
            .delInvalidRange (getSorted db c u).length)) ∧
    parseRange ⟨p⟩ = some [digitsVal p] := by
  have hmk : parseRange ⟨p ++ '-' :: q⟩ = parseRangeL (p ++ '-' :: q) := rfl
  have hstr : (⟨p ++ '-' :: q⟩ : String) ≠ "" := by
    intro he
    have : p ++ '-' :: q = [] := congrArg String.toList he
    exact List.append_ne_nil_of_right_ne_nil p (List.cons_ne_nil _ _) this
  refine ⟨?_, ?_, ?_⟩
  · intro hle
    rw [hmk, parseRangeL_dash hp hq hpd hqd, if_pos hle]
  · intro hgt
    have hnone : parseRange ⟨p ++ '-' :: q⟩ = none := by
      rw [hmk, parseRangeL_dash hp hq hpd hqd, if_neg (not_le.2 hgt)]
    refine ⟨hnone, fun cfg db c u => ?_⟩
    rw [delAction_parse_fail cfg db c u hstr hnone]
    constructor
    · split_ifs <;> rfl
    · intro hrec
      rw [if_neg (fun h0 => hrec (List.length_eq_zero.1 h0))]
  · exact parseRangeL_digits hp hpd

/-- Witness for C3 on the tokens `2-4`, `4-2` and `3`. -/
theorem C3_range_token_witness :
    parseRange "2-4" = some [2, 3, 4] ∧
    (parseRange "4-2" = none ∧
      (delAction ⟨"元"⟩ ⟨[], 1⟩ "c" "u" "4-2").1 = ⟨[], 1⟩) ∧
    parseRange "3" = some [3] := by
  have h24 := C3_range_token ['2'] ['4'] (by decide) (by decide) (by decide) (by decide)
  have h42 := C3_range_token ['4'] ['2'] (by decide) (by decide) (by decide) (by decide)
  have h3 := C3_range_token ['3'] ['3'] (by decide) (by decide) (by decide) (by decide)
  have hb := h42.2.1 (by decide)
  exact ⟨h24.1 (by decide), ⟨hb.1, (hb.2 ⟨"元"⟩ ⟨[], 1⟩ "c" "u").1⟩, h3.2.2⟩

lemma getSorted_perm (db : DB) (c u : String) :
    (getSorted db c u).Perm (db.store.filter (inScope c u)) :=
  List.mergeSort_perm _ _

lemma mem_getSorted_store {db : DB} {c u : String} {r : ElectricPayment}
    (h : r ∈ getSorted db c u) : r ∈ db.store :=
  List.mem_of_mem_filter ((getSorted_perm db c u).mem_iff.1 h)

lemma getSorted_inScope {db : DB} {c u : String} {r : ElectricPayment}
    (h : r ∈ getSorted db c u) : inScope c u r = true :=
  List.of_mem_filter ((getSorted_perm db c u).mem_iff.1 h)

lemma getSorted_ids_nodup {db : DB} (hid : (db.store.map (·.id)).Nodup)
    (c u : String) : ((getSorted db c u).map (·.id)).Nodup := by
  have h1 : ((db.store.filter (inScope c u)).map (·.id)).Nodup :=
    ((List.filter_sublist _).map _).nodup hid
  exact (((getSorted_perm db c u).map _).nodup_iff).2 h1

lemma store_id_inj {db : DB} (hid : (db.store.map (·.id)).Nodup)
    {r s : ElectricPayment} (hr : r ∈ db.store) (hs : s ∈ db.store)
    (he : r.id = s.id) : r = s :=
  List.inj_on_of_nodup_map hid hr hs he

lemma mem_uniqSorted {i : ℕ} {idxs : List ℕ} :
    i ∈ uniqSorted idxs ↔ i ∈ idxs := by
  rw [uniqSorted, List.mem_mergeSort, List.mem_dedup]

lemma uniqSorted_nodup (idxs : List ℕ) : (uniqSorted idxs).Nodup :=
  ((List.mergeSort_perm _ _).nodup_iff).2 (List.nodup_dedup idxs)

lemma uniqSorted_sorted (idxs : List ℕ) :
    (uniqSorted idxs).Pairwise (· ≤ ·) := by
  have h := @List.sorted_mergeSort ℕ (fun a b : ℕ => decide (a ≤ b))
    (fun a b c hab hbc =>
      decide_eq_true (le_trans (of_decide_eq_true hab) (of_decide_eq_true hbc)))
    (fun a b => by
      rcases le_total a b with h | h <;> simp [h])
    idxs.dedup
  exact h.imp (fun hab => of_decide_eq_true hab)

lemma get?_of_ord {records : List ElectricPayment} {i : ℕ}
    (h1 : 1 ≤ i) (h2 : i ≤ records.length) :
    ∃ r, records.get? (i - 1) = some r ∧ r ∈ records := by
  have hlt : i - 1 < records.length := lt_of_lt_of_le (Nat.sub_lt h1 one_pos) h2
  exact ⟨records.get ⟨i - 1, hlt⟩, List.get?_eq_get hlt, List.get_mem _ _ _⟩

lemma delAction_success (cfg : Config) (db : DB) (c u : String)
    (tok : String) (idxs : List ℕ) (hp : parseRange tok = some idxs)
    (hin : ∀ i ∈ idxs, 1 ≤ i ∧ i ≤ (getSorted db c u).length) :
    delAction cfg db c u tok =
      (dbRemove db (targetsOf (getSorted db c u) (uniqSorted idxs)),
       .delSuccess ((uniqSorted idxs).map (fun i =>
         (i, (((getSorted db c u).get? (i - 1)).map (·.amount)).getD (.fin 0))))
         cfg.currencyUnit) := by
  have hne := parseRange_ne_empty hp
  obtain ⟨i0, hi0⟩ := List.exists_mem_of_ne_nil _ (parseRange_nonempty hp)
  have hrecne : (getSorted db c u).length ≠ 0 := by
    obtain ⟨h1, h2⟩ := hin i0 hi0
    omega
  have hany : (idxs.any fun i =>
      decide (i < 1) || decide ((getSorted db c u).length < i)) = false := by
    refine List.any_eq_false.2 (fun i hi => ?_)
    obtain ⟨h1, h2⟩ := hin i hi
    simp [Nat.not_lt.2 h1, Nat.not_lt.2 h2]
  have htgt : (targetsOf (getSorted db c u) (uniqSorted idxs)).length ≠ 0 := by
    obtain ⟨h1, h2⟩ := hin i0 hi0
    obtain ⟨r, hr, _⟩ := get?_of_ord h1 h2
    have hmem : r.id ∈ targetsOf (getSorted db c u) (uniqSorted idxs) :=
      List.mem_filterMap.2 ⟨i0, mem_uniqSorted.2 hi0, by rw [hr]; rfl⟩
    intro h0
    rw [List.length_eq_zero.1 h0] at hmem
    exact List.not_mem_nil _ hmem
  simp only [delAction, if_neg hne, hp, if_neg hrecne, hany, Bool.false_eq_true,
    if_false, if_neg htgt]

/-- C4: for a token whose parsed ordinals all lie within
`[1, recordCount]`, the delete command removes from the store exactly
the records sitting at the requested 1-based positions of the scope's
records sorted ascending by timestamp; the ordinals are deduplicated
and sorted ascending before resolution (so each underlying record is
deleted at most once), and each resolved ordinal is reported with its
amount. -/
theorem C4_delete_by_ordinals (cfg : Config) (db : DB) (c u : String)
    (tok : String) (idxs : List ℕ)
    (hid : (db.store.map (·.id)).Nodup)
    (hp : parseRange tok = some idxs)
    (hin : ∀ i ∈ idxs, 1 ≤ i ∧ i ≤ (getSorted db c u).length) :
    (uniqSorted idxs).Nodup ∧
    (uniqSorted idxs).Pairwise (· ≤ ·) ∧
    (∀ i, i ∈ uniqSorted idxs ↔ i ∈ idxs) ∧
    (delAction cfg db c u tok).1.store =
      db.store.filter
        (fun r => decide (∀ i ∈ idxs, (getSorted db c u).get? (i - 1) ≠ some r)) ∧
    (delAction cfg db c u tok).2 =
      .delSuccess ((uniqSorted idxs).map (fun i =>
        (i, (((getSorted db c u).get? (i - 1)).map (·.amount)).getD (.fin 0))))
        cfg.currencyUnit := by
  rw [delAction_success cfg db c u tok idxs hp hin]
  refine ⟨uniqSorted_nodup idxs, uniqSorted_sorted idxs,
    fun i => mem_uniqSorted, ?_, rfl⟩
  rw [dbRemove]
  refine List.filter_congr (fun r hr => ?_)
  rw [decide_eq_decide]
  rw [not_iff_comm, not_forall]
  constructor
  · rintro ⟨i, hcond⟩
    rw [Classical.not_imp, not_not] at hcond
    obtain ⟨hi, hgi⟩ := hcond
    refine List.mem_filterMap.2 ⟨i, mem_uniqSorted.2 hi, ?_⟩
    rw [hgi]
    rfl
  · intro hmem
    obtain ⟨i, hiu, hfi⟩ := List.mem_filterMap.1 hmem
    obtain ⟨s, hs, hsid⟩ := Option.map_eq_some'.1 hfi
    have hi : i ∈ idxs := mem_uniqSorted.1 hiu
    have hsr : s = r :=
      store_id_inj hid (mem_getSorted_store (List.get?_mem hs)) hr hsid
    exact ⟨i, by rw [Classical.not_imp, not_not]; exact ⟨hi, by rw [hs, hsr]⟩⟩

/-- Witness for C4: token `3` on a five-record scope deletes exactly
the third-oldest record. -/
theorem C4_delete_by_ordinals_witness :
    (delAction ⟨"元"⟩ db5 "c" "u" "3").1.store =
      db5.store.filter
        (fun r => decide (∀ i ∈ ([3] : List ℕ), (getSorted db5 "c" "u").get? (i - 1) ≠ some r)) ∧
    (delAction ⟨"元"⟩ db5 "c" "u" "3").2 =
      .delSuccess ((uniqSorted ([3] : List ℕ)).map (fun i =>
        (i, (((getSorted db5 "c" "u").get? (i - 1)).map (·.amount)).getD (.fin 0))))
        "元" := by
  have h := C4_delete_by_ordinals ⟨"元"⟩ db5 "c" "u" "3" [3] (by decide) (by decide)
    (by simp only [getSorted_db5]; decide)
  exact ⟨h.2.2.2.1, h.2.2.2.2⟩

lemma foldl_jadd_fin (records : List ElectricPayment) (qs : List ℚ) (s : ℚ)
    (h : records.map (·.amount) = qs.map JSNum.fin) :
    records.foldl (fun acc r => jadd acc r.amount) (.fin s) = .fin (s + qs.sum) := by
  induction records generalizing qs s with
  | nil =>
    cases qs with
    | nil => simp
    | cons q qt => simp at h
  | cons r rest ih =>
    cases qs with
    | nil => simp at h
    | cons q qt =>
      simp only [List.map_cons, List.cons.injEq] at h
      obtain ⟨h1, h2⟩ := h
      simp only [List.foldl_cons, h1]
      rw [show jadd (.fin s) (.fin q) = .fin (s + q) from rfl, ih qt (s + q) h2,
        List.sum_cons, add_assoc]

lemma getSorted_pairwise (db : DB) (c u : String) :
    (getSorted db c u).Pairwise (fun a b => a.date ≤ b.date) := by
  have h := @List.sorted_mergeSort ElectricPayment dateLe
    (fun a b c hab hbc =>
      decide_eq_true (Nat.le_trans (of_decide_eq_true hab) (of_decide_eq_true hbc)))
    (fun a b => by
      rcases Nat.le_total a.date b.date with h | h <;> simp [dateLe, h])
    (db.store.filter (inScope c u))
  exact h.imp (fun hab => of_decide_eq_true hab)

/-- C7: listing on an empty scope yields the distinct no-records
response; on a non-empty scope it renders the records in ascending
timestamp order with 1-based ordinals, followed by a cumulative sum
equal to the arithmetic sum of all stored amounts. -/
theorem C7_listing (cfg : Config) (db : DB) (c u : String) (qs : List ℚ)
    (hfin : (getSorted db c u).map (·.amount) = qs.map JSNum.fin) :
    (getSorted db c u = [] → listAction cfg db c u = (db, .listEmpty)) ∧
    (getSorted db c u ≠ [] →
      listAction cfg db c u =
        (db, .listRecords
          ((getSorted db c u).enum.map (fun p => (p.1 + 1, p.2.date, p.2.amount)))
          (.fin qs.sum) cfg.currencyUnit) ∧
      ((getSorted db c u).enum.map (fun p => (p.1 + 1, p.2.date, p.2.amount))).map
          (fun e => e.1) = List.range' 1 (getSorted db c u).length ∧
      (getSorted db c u).Pairwise (fun a b => a.date ≤ b.date)) := by
  constructor
  · intro h
    simp [listAction, h]
  · intro h
    have hlen : (getSorted db c u).length ≠ 0 := fun h0 => h (List.length_eq_zero.1 h0)
    refine ⟨?_, ?_, getSorted_pairwise db c u⟩
    · simp only [listAction, if_neg hlen]
      rw [foldl_jadd_fin _ qs 0 hfin, zero_add]
    · rw [List.map_map]
      have : ((fun e : ℕ × ℕ × JSNum => e.1) ∘
          (fun p : ℕ × ElectricPayment => (p.1 + 1, p.2.date, p.2.amount))) =
          (fun p : ℕ × ElectricPayment => p.1 + 1) := rfl
      rw [this, show (fun p : ℕ × ElectricPayment => p.1 + 1) =
          ((fun n : ℕ => n + 1) ∘ Prod.fst) from rfl, ← List.map_map,
        List.enum_map_fst, List.range'_eq_map_range]
      exact List.map_congr_left (fun a _ => Nat.add_comm a 1)

/-- Witness for C7: a five-record scope with amounts 100 each. -/
theorem C7_listing_witness :
    listAction ⟨"元"⟩ db5 "c" "u" =
      (db5, .listRecords
        ((getSorted db5 "c" "u").enum.map (fun p => (p.1 + 1, p.2.date, p.2.amount)))
        (.fin ([100, 100, 100, 100, 100] : List ℚ).sum) "元") ∧
    (getSorted db5 "c" "u").Pairwise (fun a b => a.date ≤ b.date) := by
  have h := C7_listing ⟨"元"⟩ db5 "c" "u" [100, 100, 100, 100, 100]
    (by rw [getSorted_db5]; decide)
  have h2 := h.2 (by rw [getSorted_db5]; decide)
  exact ⟨h2.1, h2.2.2⟩

lemma listAction_fst (cfg : Config) (db : DB) (c u : String) :
    (listAction cfg db c u).1 = db := by
  simp only [listAction]
  split_ifs <;> rfl

lemma payAction_fst_cases (cfg : Config) (db : DB) (c u : String) (now : ℕ)
    (a : Option JSNum) :
    (payAction cfg db c u now a).1 = db ∨
    ∃ v, (payAction cfg db c u now a).1 = (dbCreate db v now c u) := by
  cases a with
  | none => exact Or.inl rfl
  | some x =>
    simp only [payAction]
    split_ifs <;> first
      | exact Or.inl rfl
      | exact Or.inr ⟨_, rfl⟩

lemma delAction_fst_cases (cfg : Config) (db : DB) (c u : String) (t : String) :
    (delAction cfg db c u t).1 = db ∨
    ∃ idxs, (delAction cfg db c u t).1 =
      dbRemove db (targetsOf (getSorted db c u) (uniqSorted idxs)) := by
  by_cases h0 : t = ""
  · exact Or.inl (by simp [delAction, h0])
  · simp only [delAction, if_neg h0]
    by_cases h1 : (getSorted db c u).length = 0
    · exact Or.inl (by simp [h1])
    · simp only [if_neg h1]
      rcases hp : parseRange t with _ | idxs
      · exact Or.inl rfl
      · simp only []
        split_ifs <;> first
          | exact Or.inl rfl
          | exact Or.inr ⟨idxs, rfl⟩

lemma mem_targetsOf {records : List ElectricPayment} {uniq : List ℕ} {t : ℕ}
    (h : t ∈ targetsOf records uniq) : ∃ s ∈ records, s.id = t := by
  obtain ⟨i, _, hfi⟩ := List.mem_filterMap.1 h
  obtain ⟨s, hs, hsid⟩ := Option.map_eq_some'.1 hfi
  exact ⟨s, List.get?_mem hs, hsid⟩

lemma dbRemove_frame {db : DB} {c u c2 u2 : String}
    (hid : (db.store.map (·.id)).Nodup) (hne : ¬(c2 = c ∧ u2 = u))
    (tg : List ℕ) (htg : ∀ t ∈ tg, ∃ s ∈ getSorted db c u, s.id = t) :
    (dbRemove db tg).store.filter (inScope c2 u2) =
      db.store.filter (inScope c2 u2) := by
  rw [dbRemove, List.filter_filter]
  refine List.filter_congr (fun r hr => ?_)
  by_cases hsc : inScope c2 u2 r = true
  · rw [hsc, Bool.true_and]
    refine decide_eq_true (fun hmem => ?_)
    obtain ⟨s, hs, hsid⟩ := htg _ hmem
    have hsr : s = r := store_id_inj hid (mem_getSorted_store hs) hr hsid
    have h1 : inScope c u r = true := getSorted_inScope (hsr ▸ hs)
    rw [inScope, Bool.and_eq_true, beq_iff_eq, beq_iff_eq] at h1 hsc
    exact hne ⟨hsc.1.symm.trans h1.1, hsc.2.symm.trans h1.2⟩
  · rw [Bool.not_eq_true] at hsc
    rw [hsc, Bool.false_and]

/-- C9: every command (record, list, delete) leaves the records of any
other `(channelId, userId)` scope unchanged; deletion resolves ids only
from the requesting scope's records, so (given the store's unique-id
invariant) no record outside the scope is removed or modified. -/
theorem C9_frame (cfg : Config) (db : DB) (c u c2 u2 : String) (now : ℕ)
    (cmd : Cmd) (hid : (db.store.map (·.id)).Nodup)
    (hne : ¬(c2 = c ∧ u2 = u)) :
    (runCmd cfg db c u now cmd).1.store.filter (inScope c2 u2) =
      db.store.filter (inScope c2 u2) := by
  cases cmd with
  | stat => rw [runCmd, listAction_fst]
  | pay a =>
    rcases payAction_fst_cases cfg db c u now a with h | ⟨v, h⟩
    · rw [runCmd, h]
    · rw [runCmd, h, dbCreate, List.filter_append]
      have : inScope c2 u2 ⟨db.nextId, v, now, c, u⟩ = false := by
        rw [inScope, Bool.and_eq_false_iff]
        by_cases hc : c = c2
        · refine Or.inr ?_
          rw [beq_eq_false_iff_ne]
          exact fun huu => hne ⟨hc.symm, huu.symm⟩
        · refine Or.inl ?_
          rw [beq_eq_false_iff_ne]
          exact fun hcc => hc hcc
      simp [List.filter_cons, this]
  | del t =>
    rcases delAction_fst_cases cfg db c u t with h | ⟨idxs, h⟩
    · rw [runCmd, h]
    · rw [runCmd, h]
      exact dbRemove_frame hid hne _ (fun t ht => mem_targetsOf ht)

/-- Witness for C9: deleting ordinal 1 in scope `("c","u")` leaves the
records of scope `("d","u")` untouched. -/
theorem C9_frame_witness :
    (runCmd ⟨"元"⟩ ⟨[⟨1, .fin 1, 0, "c", "u"⟩, ⟨2, .fin 2, 1, "d", "u"⟩], 3⟩
        "c" "u" 7 (.del "1")).1.store.filter (inScope "d" "u") =
      ([⟨1, .fin 1, 0, "c", "u"⟩, ⟨2, .fin 2, 1, "d", "u"⟩] :
        List ElectricPayment).filter (inScope "d" "u") :=
  C9_frame ⟨"元"⟩ ⟨[⟨1, .fin 1, 0, "c", "u"⟩, ⟨2, .fin 2, 1, "d", "u"⟩], 3⟩
    "c" "u" "d" "u" 7 (.del "1") (by decide) (by decide)

/-- C10: the `currencyUnit` configuration value is purely cosmetic —
with identical inputs and store state, every command performs the same
store effects under any two configurations (only the response content
can mention the unit). -/
theorem C10_config_cosmetic (cfg1 cfg2 : Config) (db : DB) (c u : String)
    (now : ℕ) (cmd : Cmd) :
    (runCmd cfg1 db c u now cmd).1 = (runCmd cfg2 db c u now cmd).1 := by
  cases cmd with
  | pay a =>
    cases a with
    | none => rfl
    | some x =>
      simp only [runCmd, payAction]
      split_ifs <;> rfl
  | stat =>
    simp only [runCmd, listAction]
    split_ifs <;> rfl
  | del t =>
    simp only [runCmd, delAction]
    split_ifs with h0 <;> try rfl
    rcases hp : parseRange t with _ | idxs <;> simp only [hp] <;> split_ifs <;> rfl

end ElectricFee
